import Mathlib

/-!
Verification of the `core-js-101` repository's `05-objects-tasks.js` module.

The development shallowly embeds the three utilities of the module:

* the `CssSelectorBuilder` class (a mutable builder for CSS selector strings
  with ordering/uniqueness validation) is embedded as a state record plus
  state-transforming methods returning `Except String`; the facade object
  `cssSelectorBuilder` is embedded as functions over the fresh initial state;
* the `Rectangle` factory is embedded as a record whose `getArea` field is a
  closure over the construction-time parameters, matching the source closure;
* `getJSON` / `fromJSON` delegate to the host JSON encoder, which is modelled
  from the spec as an executable serializer and parser over a JSON value type.
-/

/-- Error message thrown by `element`, `id` and `pseudoElement` when the same
exclusive selector kind repeats (copied verbatim from the source, including
its typo). -/
def dupMsg : String :=
  "Element, id and pseudo-element should not occur more then one time inside the selector"

/-- Error message thrown when selector parts are appended out of order
(copied verbatim from the source). -/
def orderMsg : String :=
  "Selector parts should be arranged in the following order: element, id, class, attribute, pseudo-class, pseudo-element"

/-- State of a `CssSelectorBuilder` instance: the three instance fields set by
the constructor (`this.previousSelector = ''`, `this.cssArray = []`,
`this.order = -1`). -/
structure CssSelectorBuilder where
  previousSelector : String
  cssArray : List String
  order : Int
deriving DecidableEq, Repr

/-- The `CssSelectorBuilder` constructor: all fields at their initial values. -/
def initState : CssSelectorBuilder := ⟨"", [], -1⟩

/-- Method `element(value)`: duplicate check on `previousSelector`, order check
`this.order > 0`, then push `value` and set `order = 0`. -/
def CssSelectorBuilder.element (value : String) (s : CssSelectorBuilder) :
    Except String CssSelectorBuilder :=
  if s.previousSelector = "element" then .error dupMsg
  else if s.order > 0 then .error orderMsg
  else .ok { previousSelector := "element", cssArray := s.cssArray ++ [value], order := 0 }

/-- Method `id(value)`: duplicate check, order check `this.order > 1`, then
push `'#' + value` and set `order = 1`. -/
def CssSelectorBuilder.id (value : String) (s : CssSelectorBuilder) :
    Except String CssSelectorBuilder :=
  if s.previousSelector = "id" then .error dupMsg
  else if s.order > 1 then .error orderMsg
  else .ok { previousSelector := "id", cssArray := s.cssArray ++ ["#" ++ value], order := 1 }

/-- Method `class(value)`: order check `this.order > 2` only, clears
`previousSelector`, pushes `'.' + value`, sets `order = 2`. -/
def CssSelectorBuilder.«class» (value : String) (s : CssSelectorBuilder) :
    Except String CssSelectorBuilder :=
  if s.order > 2 then .error orderMsg
  else .ok { previousSelector := "", cssArray := s.cssArray ++ ["." ++ value], order := 2 }

/-- Method `attr(value)`: order check `this.order > 3` only, clears
`previousSelector`, pushes `'[' + value + ']'`, sets `order = 3`. -/
def CssSelectorBuilder.attr (value : String) (s : CssSelectorBuilder) :
    Except String CssSelectorBuilder :=
  if s.order > 3 then .error orderMsg
  else .ok { previousSelector := "", cssArray := s.cssArray ++ ["[" ++ value ++ "]"], order := 3 }

/-- Method `pseudoClass(value)`: order check `this.order > 4` only, clears
`previousSelector`, pushes `':' + value`, sets `order = 4`. -/
def CssSelectorBuilder.pseudoClass (value : String) (s : CssSelectorBuilder) :
    Except String CssSelectorBuilder :=
  if s.order > 4 then .error orderMsg
  else .ok { previousSelector := "", cssArray := s.cssArray ++ [":" ++ value], order := 4 }

/-- Method `pseudoElement(value)`: duplicate check only (the source performs
no order check here), pushes `'::' + value`, sets `order = 5`. -/
def CssSelectorBuilder.pseudoElement (value : String) (s : CssSelectorBuilder) :
    Except String CssSelectorBuilder :=
  if s.previousSelector = "pseudoElement" then .error dupMsg
  else .ok { previousSelector := "pseudoElement", cssArray := s.cssArray ++ ["::" ++ value],
             order := 5 }

/-- Method `combine(selector1, combinator, selector2)`: replaces `cssArray` by
`this.cssArray.concat(selector1.cssArray).concat([' combinator ']).concat(selector2.cssArray)`;
the other fields are untouched. -/
def CssSelectorBuilder.combine (s : CssSelectorBuilder) (selector1 : CssSelectorBuilder)
    (combinator : String) (selector2 : CssSelectorBuilder) : CssSelectorBuilder :=
  { s with cssArray :=
      ((s.cssArray ++ selector1.cssArray) ++ [" " ++ combinator ++ " "]) ++ selector2.cssArray }

/-- Method `stringify()`: returns `cssArray.join('')` and resets
`previousSelector` and `cssArray` (the source does not reset `order`). -/
def CssSelectorBuilder.stringify (s : CssSelectorBuilder) : String × CssSelectorBuilder :=
  (String.join s.cssArray, { previousSelector := "", cssArray := [], order := s.order })

/-- The six fragment-appending operations of the builder, each carrying its
string argument. -/
inductive Op where
  | element (value : String)
  | id (value : String)
  | «class» (value : String)
  | attr (value : String)
  | pseudoClass (value : String)
  | pseudoElement (value : String)
deriving DecidableEq, Repr

/-- Dispatch an append operation to the corresponding builder method. -/
def Op.apply : Op → CssSelectorBuilder → Except String CssSelectorBuilder
  | .element v, s => CssSelectorBuilder.element v s
  | .id v, s => CssSelectorBuilder.id v s
  | .«class» v, s => CssSelectorBuilder.«class» v s
  | .attr v, s => CssSelectorBuilder.attr v s
  | .pseudoClass v, s => CssSelectorBuilder.pseudoClass v s
  | .pseudoElement v, s => CssSelectorBuilder.pseudoElement v s

/-- Category rank of an operation: element 0 < id 1 < class 2 < attribute 3 <
pseudo-class 4 < pseudo-element 5. -/
def Op.rank : Op → Int
  | .element _ => 0
  | .id _ => 1
  | .«class» _ => 2
  | .attr _ => 3
  | .pseudoClass _ => 4
  | .pseudoElement _ => 5

/-- The string an operation pushes onto `cssArray` (its rendered fragment). -/
def Op.render : Op → String
  | .element v => v
  | .id v => "#" ++ v
  | .«class» v => "." ++ v
  | .attr v => "[" ++ v ++ "]"
  | .pseudoClass v => ":" ++ v
  | .pseudoElement v => "::" ++ v

/-- The value each operation stores into `previousSelector` on success. -/
def Op.marker : Op → String
  | .element _ => "element"
  | .id _ => "id"
  | .pseudoElement _ => "pseudoElement"
  | _ => ""

/-- Whether the operation is one of the three repeatable categories (class,
attribute, pseudo-class). -/
def Op.repeatable : Op → Bool
  | .«class» _ => true
  | .attr _ => true
  | .pseudoClass _ => true
  | _ => false

/-- Run a list of append operations left to right, stopping at the first
thrown error. -/
def runOps : List Op → CssSelectorBuilder → Except String CssSelectorBuilder
  | [], s => .ok s
  | o :: rest, s =>
    match Op.apply o s with
    | .error e => .error e
    | .ok s' => runOps rest s'

/-- Fold computing the running maximum rank, starting from a given value. -/
def maxRankFrom (m : Int) (ops : List Op) : Int :=
  ops.foldl (fun acc o => max acc o.rank) m

/-- The highest rank among the appended operations (`-1` for the empty
chain, matching the constructor's initial `order`). -/
def maxRank (ops : List Op) : Int := maxRankFrom (-1) ops

/-- Fold computing the final `previousSelector` marker, starting from a given
value. -/
def prevFrom (p : String) (ops : List Op) : String :=
  ops.foldl (fun _ o => o.marker) p

/-- The `previousSelector` marker left behind by a chain of appends: the
marker of the last operation (`""` for the empty chain). -/
def lastExcl (ops : List Op) : String := prevFrom "" ops

/-- Builder states whose bookkeeping fields are mutually consistent: `order`
stays in `[-1, 5]` and each exclusive marker pins the rank that set it. -/
def GoodState (s : CssSelectorBuilder) : Prop :=
  (-1 ≤ s.order ∧ s.order ≤ 5) ∧
  (s.previousSelector = "element" → s.order = 0) ∧
  (s.previousSelector = "id" → s.order = 1) ∧
  (s.previousSelector = "pseudoElement" → s.order = 5)

theorem goodState_init : GoodState initState := by
  constructor
  · exact ⟨by decide, by decide⟩
  · refine ⟨?_, ?_, ?_⟩ <;> intro h <;> simp [initState] at h

theorem apply_ok_spec {o : Op} {s s' : CssSelectorBuilder} (hg : GoodState s)
    (h : Op.apply o s = .ok s') :
    GoodState s' ∧ s'.order = max s.order o.rank ∧
      s'.cssArray = s.cssArray ++ [o.render] ∧ s'.previousSelector = o.marker := by
  obtain ⟨⟨hlo, hhi⟩, hel, hid, hpe⟩ := hg
  cases o with
  | element v =>
    simp only [Op.apply, CssSelectorBuilder.element] at h
    split at h
    · exact absurd h (by simp)
    · split at h
      · exact absurd h (by simp)
      · rename_i hcond
        cases h
        refine ⟨⟨⟨by norm_num, by norm_num⟩, fun _ => rfl, by simp, by simp⟩, ?_, rfl, rfl⟩
        simp only [Op.rank]
        omega
  | id v =>
    simp only [Op.apply, CssSelectorBuilder.id] at h
    split at h
    · exact absurd h (by simp)
    · split at h
      · exact absurd h (by simp)
      · rename_i hcond
        cases h
        refine ⟨⟨⟨by norm_num, by norm_num⟩, by simp, fun _ => rfl, by simp⟩, ?_, rfl, rfl⟩
        simp only [Op.rank]
        omega
  | «class» v =>
    simp only [Op.apply, CssSelectorBuilder.«class»] at h
    split at h
    · exact absurd h (by simp)
    · rename_i hcond
      cases h
      refine ⟨⟨⟨by norm_num, by norm_num⟩, by simp, by simp, by simp⟩, ?_, rfl, rfl⟩
      simp only [Op.rank]
      omega
  | attr v =>
    simp only [Op.apply, CssSelectorBuilder.attr] at h
    split at h
    · exact absurd h (by simp)
    · rename_i hcond
      cases h
      refine ⟨⟨⟨by norm_num, by norm_num⟩, by simp, by simp, by simp⟩, ?_, rfl, rfl⟩
      simp only [Op.rank]
      omega
  | pseudoClass v =>
    simp only [Op.apply, CssSelectorBuilder.pseudoClass] at h
    split at h
    · exact absurd h (by simp)
    · rename_i hcond
      cases h
      refine ⟨⟨⟨by norm_num, by norm_num⟩, by simp, by simp, by simp⟩, ?_, rfl, rfl⟩
      simp only [Op.rank]
      omega
  | pseudoElement v =>
    simp only [Op.apply, CssSelectorBuilder.pseudoElement] at h
    split at h
    · exact absurd h (by simp)
    · cases h
      refine ⟨⟨⟨by norm_num, by norm_num⟩, by simp, by simp, fun _ => rfl⟩, ?_, rfl, rfl⟩
      simp only [Op.rank]
      omega

theorem runOps_ok_spec :
    ∀ (ops : List Op) (s₀ s : CssSelectorBuilder), GoodState s₀ →
      runOps ops s₀ = .ok s →
      GoodState s ∧ s.order = maxRankFrom s₀.order ops ∧
        s.cssArray = s₀.cssArray ++ ops.map Op.render ∧
        s.previousSelector = prevFrom s₀.previousSelector ops := by
  intro ops
  induction ops with
  | nil =>
    intro s₀ s hg h
    simp only [runOps] at h
    cases h
    exact ⟨hg, rfl, by simp [maxRankFrom, prevFrom], rfl⟩
  | cons o rest ih =>
    intro s₀ s hg h
    simp only [runOps] at h
    cases happ : Op.apply o s₀ with
    | error e => rw [happ] at h; exact absurd h (by simp)
    | ok s₁ =>
      rw [happ] at h
      obtain ⟨hg₁, hord, hcss, hprev⟩ := apply_ok_spec hg happ
      obtain ⟨hgs, hords, hcsss, hprevs⟩ := ih s₁ s hg₁ h
      refine ⟨hgs, ?_, ?_, ?_⟩
      · rw [hords, hord]; rfl
      · rw [hcsss, hcss]; simp
      · rw [hprevs, hprev]; rfl

theorem runOps_cssArray :
    ∀ (ops : List Op) (s₀ s : CssSelectorBuilder), runOps ops s₀ = .ok s →
      s.cssArray = s₀.cssArray ++ ops.map Op.render := by
  intro ops
  induction ops with
  | nil =>
    intro s₀ s h
    simp only [runOps] at h
    cases h
    simp
  | cons o rest ih =>
    intro s₀ s h
    simp only [runOps] at h
    cases happ : Op.apply o s₀ with
    | error e => rw [happ] at h; exact absurd h (by simp)
    | ok s₁ =>
      rw [happ] at h
      have hcss : s₁.cssArray = s₀.cssArray ++ [o.render] := by
        cases o <;>
          simp only [Op.apply, CssSelectorBuilder.element, CssSelectorBuilder.id,
            CssSelectorBuilder.«class», CssSelectorBuilder.attr,
            CssSelectorBuilder.pseudoClass, CssSelectorBuilder.pseudoElement] at happ <;>
          [skip; skip; skip; skip; skip; skip] <;>
          first
          | (split at happ
             · exact absurd happ (by simp)
             · split at happ
               · exact absurd happ (by simp)
               · cases happ; rfl)
          | (split at happ
             · exact absurd happ (by simp)
             · cases happ; rfl)
      rw [ih s₁ s h, hcss]
      simp

/-- C1: for a chain built from the empty builder by the six append
operations with no error, a further append raises the out-of-order error
exactly when its rank is strictly below the highest rank already appended;
the three repeatable kinds succeed whenever their rank is not below it. -/
theorem c1_outOfOrder_iff (ops : List Op) (s : CssSelectorBuilder) (o : Op)
    (h : runOps ops initState = .ok s) :
    (Op.apply o s = .error orderMsg ↔ o.rank < maxRank ops) ∧
    (o.repeatable = true → ¬ o.rank < maxRank ops → ∃ s', Op.apply o s = .ok s') := by
  obtain ⟨hg, hord, -, -⟩ := runOps_ok_spec ops initState s goodState_init h
  have hms : maxRank ops = s.order := by rw [hord]; rfl
  obtain ⟨⟨hlo, hhi⟩, hel, hid, hpe⟩ := hg
  rw [hms]
  have hdo : dupMsg ≠ orderMsg := by decide
  cases o with
  | element v =>
    refine ⟨?_, by simp [Op.repeatable]⟩
    simp only [Op.apply, CssSelectorBuilder.element, Op.rank]
    by_cases hp : s.previousSelector = "element"
    · have h0 := hel hp
      rw [if_pos hp, h0]
      simp [hdo]
    · rw [if_neg hp]
      by_cases hgt : s.order > 0
      · rw [if_pos hgt]
        simp [hgt]
      · rw [if_neg hgt]
        constructor
        · intro hcontra; exact absurd hcontra (by simp)
        · intro hlt; omega
  | id v =>
    refine ⟨?_, by simp [Op.repeatable]⟩
    simp only [Op.apply, CssSelectorBuilder.id, Op.rank]
    by_cases hp : s.previousSelector = "id"
    · have h1 := hid hp
      rw [if_pos hp, h1]
      simp [hdo]
    · rw [if_neg hp]
      by_cases hgt : s.order > 1
      · rw [if_pos hgt]
        simp [hgt]
      · rw [if_neg hgt]
        constructor
        · intro hcontra; exact absurd hcontra (by simp)
        · intro hlt; omega
  | «class» v =>
    constructor
    · simp only [Op.apply, CssSelectorBuilder.«class», Op.rank]
      by_cases hgt : s.order > 2
      · rw [if_pos hgt]
        simp [hgt]
      · rw [if_neg hgt]
        constructor
        · intro hcontra; exact absurd hcontra (by simp)
        · intro hlt; omega
    · intro _ hnlt
      simp only [Op.apply, CssSelectorBuilder.«class»]
      rw [if_neg (by simpa [Op.rank] using hnlt)]
      exact ⟨_, rfl⟩
  | attr v =>
    constructor
    · simp only [Op.apply, CssSelectorBuilder.attr, Op.rank]
      by_cases hgt : s.order > 3
      · rw [if_pos hgt]
        simp [hgt]
      · rw [if_neg hgt]
        constructor
        · intro hcontra; exact absurd hcontra (by simp)
        · intro hlt; omega
    · intro _ hnlt
      simp only [Op.apply, CssSelectorBuilder.attr]
      rw [if_neg (by simpa [Op.rank] using hnlt)]
      exact ⟨_, rfl⟩
  | pseudoClass v =>
    constructor
    · simp only [Op.apply, CssSelectorBuilder.pseudoClass, Op.rank]
      by_cases hgt : s.order > 4
      · rw [if_pos hgt]
        simp [hgt]
      · rw [if_neg hgt]
        constructor
        · intro hcontra; exact absurd hcontra (by simp)
        · intro hlt; omega
    · intro _ hnlt
      simp only [Op.apply, CssSelectorBuilder.pseudoClass]
      rw [if_neg (by simpa [Op.rank] using hnlt)]
      exact ⟨_, rfl⟩
  | pseudoElement v =>
    refine ⟨?_, by simp [Op.repeatable]⟩
    simp only [Op.apply, CssSelectorBuilder.pseudoElement, Op.rank]
    by_cases hp : s.previousSelector = "pseudoElement"
    · rw [if_pos hp]
      have h5 := hpe hp
      constructor
      · intro hcontra
        rw [Except.error.injEq] at hcontra
        exact absurd hcontra hdo
      · intro hlt; omega
    · rw [if_neg hp]
      constructor
      · intro hcontra; exact absurd hcontra (by simp)
      · intro hlt; omega

/-- Witness for C1: on the chain `class('a')` (maximum rank 2), appending
`id('b')` (rank 1) raises the out-of-order error. -/
theorem c1_witness :
    (Op.apply (Op.id "b") ⟨"", [".a"], 2⟩ = .error orderMsg ↔
      (Op.id "b").rank < maxRank [Op.«class» "a"]) ∧
    ((Op.id "b").repeatable = true → ¬ (Op.id "b").rank < maxRank [Op.«class» "a"] →
      ∃ s', Op.apply (Op.id "b") ⟨"", [".a"], 2⟩ = .ok s') :=
  c1_outOfOrder_iff [Op.«class» "a"] ⟨"", [".a"], 2⟩ (Op.id "b") rfl

/-- Recognizer for `element` append operations. -/
def isElementOp : Op → Bool
  | .element _ => true
  | _ => false

/-- Recognizer for `id` append operations. -/
def isIdOp : Op → Bool
  | .id _ => true
  | _ => false

/-- Recognizer for `pseudoElement` append operations. -/
def isPseudoElementOp : Op → Bool
  | .pseudoElement _ => true
  | _ => false

/-- Inductive invariant tying the number of exclusive fragments appended so
far (`e` elements, `i` ids, `p` pseudo-elements) to the builder state. -/
def CntInv (s : CssSelectorBuilder) (e i p : Nat) : Prop :=
  e ≤ 1 ∧ i ≤ 1 ∧ p ≤ 1 ∧
  (e = 1 → 0 ≤ s.order ∧ (s.order = 0 → s.previousSelector = "element")) ∧
  (i = 1 → 1 ≤ s.order ∧ (s.order = 1 → s.previousSelector = "id")) ∧
  (p = 1 → s.previousSelector = "pseudoElement" ∧ s.order = 5)

theorem cntInv_step {o : Op} {s s' : CssSelectorBuilder} {e i p : Nat}
    (hc : CntInv s e i p) (h : Op.apply o s = .ok s') :
    CntInv s' (e + (if isElementOp o then 1 else 0)) (i + (if isIdOp o then 1 else 0))
      (p + (if isPseudoElementOp o then 1 else 0)) := by
  obtain ⟨he1, hi1, hp1, hE, hI, hP⟩ := hc
  cases o with
  | element v =>
    simp only [Op.apply, CssSelectorBuilder.element] at h
    split at h
    · exact absurd h (by simp)
    · split at h
      · exact absurd h (by simp)
      · rename_i hp hgt
        cases h
        have he0 : e = 0 := by
          by_contra hne
          have heq : e = 1 := by omega
          obtain ⟨hge, himp⟩ := hE heq
          exact hp (himp (by omega))
        subst he0
        refine ⟨by simp [isElementOp], by simpa [isIdOp] using hi1,
          by simpa [isPseudoElementOp] using hp1, ?_, ?_, ?_⟩
        · intro _; exact ⟨by norm_num, fun _ => rfl⟩
        · intro hi
          rw [if_neg (by simp [isIdOp])] at hi
          rw [Nat.add_zero] at hi
          exact absurd (hI hi).1 (by omega)
        · intro hpe
          rw [if_neg (by simp [isPseudoElementOp])] at hpe
          rw [Nat.add_zero] at hpe
          exact absurd (hP hpe).2 (by omega)
  | id v =>
    simp only [Op.apply, CssSelectorBuilder.id] at h
    split at h
    · exact absurd h (by simp)
    · split at h
      · exact absurd h (by simp)
      · rename_i hp hgt
        cases h
        have hi0 : i = 0 := by
          by_contra hne
          have heq : i = 1 := by omega
          obtain ⟨hge, himp⟩ := hI heq
          exact hp (himp (by omega))
        subst hi0
        refine ⟨by simpa [isElementOp] using he1, by simp [isIdOp],
          by simpa [isPseudoElementOp] using hp1, ?_, ?_, ?_⟩
        · intro he
          rw [if_neg (by simp [isElementOp]), Nat.add_zero] at he
          exact ⟨by norm_num, by norm_num⟩
        · intro _; exact ⟨by norm_num, fun _ => rfl⟩
        · intro hpe
          rw [if_neg (by simp [isPseudoElementOp]), Nat.add_zero] at hpe
          exact absurd (hP hpe).2 (by omega)
  | «class» v =>
    simp only [Op.apply, CssSelectorBuilder.«class»] at h
    split at h
    · exact absurd h (by simp)
    · rename_i hgt
      cases h
      refine ⟨by simpa [isElementOp] using he1, by simpa [isIdOp] using hi1,
        by simpa [isPseudoElementOp] using hp1, ?_, ?_, ?_⟩
      · intro he
        rw [if_neg (by simp [isElementOp]), Nat.add_zero] at he
        exact ⟨by norm_num, by norm_num⟩
      · intro hi
        rw [if_neg (by simp [isIdOp]), Nat.add_zero] at hi
        exact ⟨by norm_num, by norm_num⟩
      · intro hpe
        rw [if_neg (by simp [isPseudoElementOp]), Nat.add_zero] at hpe
        exact absurd (hP hpe).2 (by omega)
  | attr v =>
    simp only [Op.apply, CssSelectorBuilder.attr] at h
    split at h
    · exact absurd h (by simp)
    · rename_i hgt
      cases h
      refine ⟨by simpa [isElementOp] using he1, by simpa [isIdOp] using hi1,
        by simpa [isPseudoElementOp] using hp1, ?_, ?_, ?_⟩
      · intro he
        rw [if_neg (by simp [isElementOp]), Nat.add_zero] at he
        exact ⟨by norm_num, by norm_num⟩
      · intro hi
        rw [if_neg (by simp [isIdOp]), Nat.add_zero] at hi
        exact ⟨by norm_num, by norm_num⟩
      · intro hpe
        rw [if_neg (by simp [isPseudoElementOp]), Nat.add_zero] at hpe
        exact absurd (hP hpe).2 (by omega)
  | pseudoClass v =>
    simp only [Op.apply, CssSelectorBuilder.pseudoClass] at h
    split at h
    · exact absurd h (by simp)
    · rename_i hgt
      cases h
      refine ⟨by simpa [isElementOp] using he1, by simpa [isIdOp] using hi1,
        by simpa [isPseudoElementOp] using hp1, ?_, ?_, ?_⟩
      · intro he
        rw [if_neg (by simp [isElementOp]), Nat.add_zero] at he
        exact ⟨by norm_num, by norm_num⟩
      · intro hi
        rw [if_neg (by simp [isIdOp]), Nat.add_zero] at hi
        exact ⟨by norm_num, by norm_num⟩
      · intro hpe
        rw [if_neg (by simp [isPseudoElementOp]), Nat.add_zero] at hpe
        exact absurd (hP hpe).2 (by omega)
  | pseudoElement v =>
    simp only [Op.apply, CssSelectorBuilder.pseudoElement] at h
    split at h
    · exact absurd h (by simp)
    · rename_i hp
      cases h
      have hp0 : p = 0 := by
        by_contra hne
        have heq : p = 1 := by omega
        exact hp (hP heq).1
      subst hp0
      refine ⟨by simpa [isElementOp] using he1, by simpa [isIdOp] using hi1,
        by simp [isPseudoElementOp], ?_, ?_, ?_⟩
      · intro he
        rw [if_neg (by simp [isElementOp]), Nat.add_zero] at he
        exact ⟨by norm_num, by norm_num⟩
      · intro hi
        rw [if_neg (by simp [isIdOp]), Nat.add_zero] at hi
        exact ⟨by norm_num, by norm_num⟩
      · intro _; exact ⟨rfl, rfl⟩

theorem cntInv_run :
    ∀ (ops : List Op) (s₀ s : CssSelectorBuilder) (e i p : Nat),
      CntInv s₀ e i p → runOps ops s₀ = .ok s →
      CntInv s (e + ops.countP isElementOp) (i + ops.countP isIdOp)
        (p + ops.countP isPseudoElementOp) := by
  intro ops
  induction ops with
  | nil =>
    intro s₀ s e i p hc h
    simp only [runOps] at h
    cases h
    simpa using hc
  | cons o rest ih =>
    intro s₀ s e i p hc h
    simp only [runOps] at h
    cases happ : Op.apply o s₀ with
    | error msg => rw [happ] at h; exact absurd h (by simp)
    | ok s₁ =>
      rw [happ] at h
      have hstep := cntInv_step hc happ
      have hrun := ih s₁ s _ _ _ hstep h
      have harith : ∀ (c : Nat) (b : Bool) (n : Nat),
          c + b.toNat + n = c + (n + b.toNat) := by
        intro c b n; omega
      simp only [List.countP_cons]
      have hcast : ∀ (b : Bool), (if b then 1 else 0) = b.toNat := by
        intro b; cases b <;> rfl
      rw [hcast] at hrun
      rw [hcast] at hrun
      rw [hcast] at hrun
      rw [harith, harith, harith] at hrun
      rw [hcast (isElementOp o), hcast (isIdOp o), hcast (isPseudoElementOp o)]
      exact hrun

/-- C2 counterexample: calling `element` a second time after an intervening
`class` raises the out-of-order error, not the duplicate error that the
claim says is raised whenever the same exclusive category repeats. -/
theorem c2_counterexample :
    runOps [Op.element "a", Op.«class» "c", Op.element "b"] initState = .error orderMsg ∧
    orderMsg ≠ dupMsg :=
  ⟨rfl, by decide⟩

/-- C2 (amended): the duplicate error is raised by `element`, `id` or
`pseudoElement` exactly when the immediately preceding append was of that same
exclusive category (the `previousSelector` marker, cleared by class/attr/
pseudo-class appends, still holds it); a repeat with intervening appends fails
with the out-of-order error instead; either way at most one element, one id
and one pseudo-element fragment are ever appended to an error-free chain. -/
theorem c2_exclusive_duplicates (ops : List Op) (s : CssSelectorBuilder)
    (h : runOps ops initState = .ok s) :
    (ops.countP isElementOp ≤ 1 ∧ ops.countP isIdOp ≤ 1 ∧
      ops.countP isPseudoElementOp ≤ 1) ∧
    (∀ v, Op.apply (Op.element v) s = .error dupMsg ↔ lastExcl ops = "element") ∧
    (∀ v, Op.apply (Op.id v) s = .error dupMsg ↔ lastExcl ops = "id") ∧
    (∀ v, Op.apply (Op.pseudoElement v) s = .error dupMsg ↔
      lastExcl ops = "pseudoElement") := by
  have hcnt0 : CntInv initState 0 0 0 := by
    refine ⟨by omega, by omega, by omega, ?_, ?_, ?_⟩ <;> intro hcontra <;> omega
  have hcnt := cntInv_run ops initState s 0 0 0 hcnt0 h
  obtain ⟨he1, hi1, hp1, -, -, -⟩ := hcnt
  have hprev : s.previousSelector = lastExcl ops :=
    (runOps_ok_spec ops initState s goodState_init h).2.2.2
  have hod : ¬ orderMsg = dupMsg := by decide
  refine ⟨⟨by simpa using he1, by simpa using hi1, by simpa using hp1⟩, ?_, ?_, ?_⟩
  · intro v
    rw [← hprev]
    simp only [Op.apply, CssSelectorBuilder.element]
    by_cases hp : s.previousSelector = "element"
    · simp [hp]
    · rw [if_neg hp]
      simp only [hp, iff_false]
      intro hcontra
      split at hcontra
      · rw [Except.error.injEq] at hcontra
        exact hod hcontra
      · exact absurd hcontra (by simp)
  · intro v
    rw [← hprev]
    simp only [Op.apply, CssSelectorBuilder.id]
    by_cases hp : s.previousSelector = "id"
    · simp [hp]
    · rw [if_neg hp]
      simp only [hp, iff_false]
      intro hcontra
      split at hcontra
      · rw [Except.error.injEq] at hcontra
        exact hod hcontra
      · exact absurd hcontra (by simp)
  · intro v
    rw [← hprev]
    simp only [Op.apply, CssSelectorBuilder.pseudoElement]
    by_cases hp : s.previousSelector = "pseudoElement"
    · simp [hp]
    · rw [if_neg hp]
      simp only [hp, iff_false]
      intro hcontra
      exact absurd hcontra (by simp)

/-- Witness for C2 at the one-element chain `element('a')`: the element count
is at most one and an immediate second `element` raises the duplicate error. -/
theorem c2_witness :
    ([Op.element "a"] : List Op).countP isElementOp ≤ 1 ∧
    (Op.apply (Op.element "x") ⟨"element", ["a"], 0⟩ = .error dupMsg ↔
      lastExcl [Op.element "a"] = "element") :=
  ⟨(c2_exclusive_duplicates [Op.element "a"] ⟨"element", ["a"], 0⟩ rfl).1.1,
    (c2_exclusive_duplicates [Op.element "a"] ⟨"element", ["a"], 0⟩ rfl).2.1 "x"⟩

/-- C3: on an error-free chain, `stringify()` returns the concatenation of
the rendered fragments in insertion order with no separators (element as
`name`, id as `#name`, class as `.name`, attr as `[spec]`, pseudo-class as
`:name`, pseudo-element as `::name`). -/
theorem c3_stringify_concat (ops : List Op) (s : CssSelectorBuilder)
    (h : runOps ops initState = .ok s) :
    s.cssArray = ops.map Op.render ∧
    (CssSelectorBuilder.stringify s).1 = String.join (ops.map Op.render) := by
  have hcss := runOps_cssArray ops initState s h
  simp only [initState] at hcss
  rw [List.nil_append] at hcss
  exact ⟨hcss, by rw [CssSelectorBuilder.stringify, hcss]⟩

/-- Witness for C3: the spec's example `id('main').class('container')
.class('editable')` stringifies to `#main.container.editable`. -/
theorem c3_witness :
    (CssSelectorBuilder.stringify ⟨"", ["#main", ".container", ".editable"], 2⟩).1 =
      "#main.container.editable" :=
  (c3_stringify_concat [Op.id "main", Op.«class» "container", Op.«class» "editable"]
    ⟨"", ["#main", ".container", ".editable"], 2⟩ rfl).2.trans rfl

/-- C4 counterexample: after `id('x')` and `stringify()`, the builder retains
`order = 1`, so a subsequent `element('d')` raises the out-of-order error even
though `element('d')` succeeds on a freshly constructed builder — the claim
that a stringified builder behaves exactly like a fresh one is false. -/
theorem c4_counterexample :
    runOps [Op.id "x"] initState = .ok ⟨"id", ["#x"], 1⟩ ∧
    (CssSelectorBuilder.stringify ⟨"id", ["#x"], 1⟩).2 ≠ initState ∧
    Op.apply (Op.element "d") (CssSelectorBuilder.stringify ⟨"id", ["#x"], 1⟩).2 =
      .error orderMsg ∧
    Op.apply (Op.element "d") initState = .ok ⟨"element", ["d"], 0⟩ :=
  ⟨rfl, by decide, rfl, rfl⟩

/-- C4 (amended): `stringify()` clears `previousSelector` and the fragment
list — so rebuilding afterwards yields only the newly appended fragments —
but it retains the running maximum rank `order`, so the reused builder can
reject appends that a fresh builder would accept. -/
theorem c4_stringify_reset (s t : CssSelectorBuilder) (ops : List Op)
    (h : runOps ops (CssSelectorBuilder.stringify s).2 = .ok t) :
    (CssSelectorBuilder.stringify s).2 = ⟨"", [], s.order⟩ ∧
    t.cssArray = ops.map Op.render ∧
    (CssSelectorBuilder.stringify t).1 = String.join (ops.map Op.render) := by
  have hcss := runOps_cssArray ops (CssSelectorBuilder.stringify s).2 t h
  simp only [CssSelectorBuilder.stringify] at hcss
  rw [List.nil_append] at hcss
  exact ⟨rfl, hcss, by rw [CssSelectorBuilder.stringify, hcss]⟩

/-- Witness for C4: after `id('x')` then `stringify()`, rebuilding with
`class('c')` leaves exactly the new fragment. -/
theorem c4_witness :
    (CssSelectorBuilder.stringify ⟨"id", ["#x"], 1⟩).2 = ⟨"", [], 1⟩ ∧
    (⟨"", [".c"], 2⟩ : CssSelectorBuilder).cssArray = [Op.«class» "c"].map Op.render ∧
    (CssSelectorBuilder.stringify ⟨"", [".c"], 2⟩).1 =
      String.join ([Op.«class» "c"].map Op.render) :=
  c4_stringify_reset ⟨"id", ["#x"], 1⟩ ⟨"", [".c"], 2⟩ [Op.«class» "c"] rfl

/-- C5 counterexample: there is no chain on which a pseudo-element fragment is
followed by a successful `class` append — `class` after `pseudoElement` always
throws, contradicting the claim's consequence. -/
theorem c5_counterexample :
    ¬ ∃ (v w : String) (s s' s'' : CssSelectorBuilder),
        Op.apply (Op.pseudoElement v) s = .ok s' ∧ Op.apply (Op.«class» w) s' = .ok s'' := by
  rintro ⟨v, w, s, s', s'', h1, h2⟩
  simp only [Op.apply, CssSelectorBuilder.pseudoElement] at h1
  split at h1
  · exact absurd h1 (by simp)
  · cases h1
    simp only [Op.apply, CssSelectorBuilder.«class»] at h2
    rw [if_pos (by norm_num)] at h2
    exact absurd h2 (by simp)

/-- C5 (amended): `pseudoElement` indeed performs no rank-ordering check — it
never raises the out-of-order error and succeeds from any state without a
pseudo-element marker, whatever the current rank — but it sets the running
rank to the maximum 5, so a `class` append directly after a successful
pseudo-element append always raises the out-of-order error. -/
theorem c5_pseudoElement_no_rank_check :
    (∀ (v : String) (s : CssSelectorBuilder),
       Op.apply (Op.pseudoElement v) s ≠ .error orderMsg) ∧
    (∀ (v : String) (s : CssSelectorBuilder), s.previousSelector ≠ "pseudoElement" →
       Op.apply (Op.pseudoElement v) s =
         .ok ⟨"pseudoElement", s.cssArray ++ ["::" ++ v], 5⟩) ∧
    (∀ (v w : String) (s s' : CssSelectorBuilder),
       Op.apply (Op.pseudoElement v) s = .ok s' →
       Op.apply (Op.«class» w) s' = .error orderMsg) := by
  refine ⟨?_, ?_, ?_⟩
  · intro v s hcontra
    simp only [Op.apply, CssSelectorBuilder.pseudoElement] at hcontra
    split at hcontra
    · rw [Except.error.injEq] at hcontra
      exact (by decide : ¬ dupMsg = orderMsg) hcontra
    · exact absurd hcontra (by simp)
  · intro v s hp
    simp only [Op.apply, CssSelectorBuilder.pseudoElement]
    rw [if_neg hp]
  · intro v w s s' h1
    simp only [Op.apply, CssSelectorBuilder.pseudoElement] at h1
    split at h1
    · exact absurd h1 (by simp)
    · cases h1
      simp only [Op.apply, CssSelectorBuilder.«class»]
      rw [if_pos (by norm_num)]

/-- Witness for C5: concrete instance — `pseudoElement('x')` on a fresh
builder succeeds, and `class('c')` right after it throws the ordering error. -/
theorem c5_witness :
    Op.apply (Op.pseudoElement "x") initState = .ok ⟨"pseudoElement", ["::x"], 5⟩ ∧
    Op.apply (Op.«class» "c") ⟨"pseudoElement", ["::x"], 5⟩ = .error orderMsg :=
  ⟨by
    have h := c5_pseudoElement_no_rank_check.2.1 "x" initState (by decide)
    simpa [initState] using h,
   c5_pseudoElement_no_rank_check.2.2 "x" "c" initState ⟨"pseudoElement", ["::x"], 5⟩ rfl⟩

/-- Facade entry `cssSelectorBuilder.element`: new builder, then the method. -/
def cssSelectorBuilder.element (value : String) : Except String CssSelectorBuilder :=
  CssSelectorBuilder.element value initState

/-- Facade entry `cssSelectorBuilder.id`. -/
def cssSelectorBuilder.id (value : String) : Except String CssSelectorBuilder :=
  CssSelectorBuilder.id value initState

/-- Facade entry `cssSelectorBuilder.class`. -/
def cssSelectorBuilder.«class» (value : String) : Except String CssSelectorBuilder :=
  CssSelectorBuilder.«class» value initState

/-- Facade entry `cssSelectorBuilder.attr`. -/
def cssSelectorBuilder.attr (value : String) : Except String CssSelectorBuilder :=
  CssSelectorBuilder.attr value initState

/-- Facade entry `cssSelectorBuilder.pseudoClass`. -/
def cssSelectorBuilder.pseudoClass (value : String) : Except String CssSelectorBuilder :=
  CssSelectorBuilder.pseudoClass value initState

/-- Facade entry `cssSelectorBuilder.pseudoElement`. -/
def cssSelectorBuilder.pseudoElement (value : String) : Except String CssSelectorBuilder :=
  CssSelectorBuilder.pseudoElement value initState

/-- Facade entry `cssSelectorBuilder.combine`: new builder, then `combine`. -/
def cssSelectorBuilder.combine (selector1 : CssSelectorBuilder) (combinator : String)
    (selector2 : CssSelectorBuilder) : CssSelectorBuilder :=
  CssSelectorBuilder.combine initState selector1 combinator selector2

/-- C6: `combine` appends the left selector's fragments, the single
fragment `" " ++ combinator ++ " "`, then the right selector's fragments onto
the receiver's sequence, never throws (it is a total function in this
embedding), leaves the receiver's other fields unchanged, and the spec's
example `div#main ~ table#data` stringifies as claimed. -/
theorem c6_combine_appends (s selector1 selector2 : CssSelectorBuilder) (combinator : String) :
    (CssSelectorBuilder.combine s selector1 combinator selector2).cssArray =
      s.cssArray ++ (selector1.cssArray ++
        ((" " ++ combinator ++ " ") :: selector2.cssArray)) ∧
    (CssSelectorBuilder.combine s selector1 combinator selector2).previousSelector =
      s.previousSelector ∧
    (CssSelectorBuilder.combine s selector1 combinator selector2).order = s.order ∧
    (∀ d t, runOps [Op.element "div", Op.id "main"] initState = .ok d →
        runOps [Op.element "table", Op.id "data"] initState = .ok t →
        (CssSelectorBuilder.stringify (cssSelectorBuilder.combine d "~" t)).1 =
          "div#main ~ table#data") := by
  refine ⟨by simp [CssSelectorBuilder.combine], rfl, rfl, ?_⟩
  intro d t hd ht
  have hd' : d = ⟨"id", ["div", "#main"], 1⟩ := by
    rw [show runOps [Op.element "div", Op.id "main"] initState =
        Except.ok (⟨"id", ["div", "#main"], 1⟩ : CssSelectorBuilder) from rfl] at hd
    exact (Except.ok.inj hd).symm
  have ht' : t = ⟨"id", ["table", "#data"], 1⟩ := by
    rw [show runOps [Op.element "table", Op.id "data"] initState =
        Except.ok (⟨"id", ["table", "#data"], 1⟩ : CssSelectorBuilder) from rfl] at ht
    exact (Except.ok.inj ht).symm
  subst hd' ht'
  rfl

/-- Witness for C6: the spec's example evaluated concretely through the
facade combine. -/
theorem c6_witness :
    (CssSelectorBuilder.stringify
        (cssSelectorBuilder.combine ⟨"id", ["div", "#main"], 1⟩ "~"
          ⟨"id", ["table", "#data"], 1⟩)).1 = "div#main ~ table#data" :=
  (c6_combine_appends initState initState initState "~").2.2.2
    ⟨"id", ["div", "#main"], 1⟩ ⟨"id", ["table", "#data"], 1⟩ rfl rfl

/-- C7: each facade entry point applies exactly one operation to a freshly
constructed empty builder and returns the result; the six append entries
always succeed with the explicitly listed one-fragment state, the combine
entry returns a fresh-state builder holding only the spliced fragments, and
no single append ever throws on a fresh builder. -/
theorem c7_facade_fresh (v : String) :
    cssSelectorBuilder.element v = .ok ⟨"element", [v], 0⟩ ∧
    cssSelectorBuilder.id v = .ok ⟨"id", ["#" ++ v], 1⟩ ∧
    cssSelectorBuilder.«class» v = .ok ⟨"", ["." ++ v], 2⟩ ∧
    cssSelectorBuilder.attr v = .ok ⟨"", ["[" ++ v ++ "]"], 3⟩ ∧
    cssSelectorBuilder.pseudoClass v = .ok ⟨"", [":" ++ v], 4⟩ ∧
    cssSelectorBuilder.pseudoElement v = .ok ⟨"pseudoElement", ["::" ++ v], 5⟩ ∧
    (∀ s1 s2 c, cssSelectorBuilder.combine s1 c s2 =
      ⟨"", s1.cssArray ++ ((" " ++ c ++ " ") :: s2.cssArray), -1⟩) ∧
    (∀ o : Op, Op.apply o initState ≠ .error dupMsg ∧
      Op.apply o initState ≠ .error orderMsg) := by
  refine ⟨rfl, rfl, rfl, rfl, rfl, rfl, ?_, ?_⟩
  · intro s1 s2 c
    simp [cssSelectorBuilder.combine, CssSelectorBuilder.combine, initState]
  · intro o
    cases o <;> exact ⟨by simp [Op.apply, CssSelectorBuilder.element, CssSelectorBuilder.id,
      CssSelectorBuilder.«class», CssSelectorBuilder.attr, CssSelectorBuilder.pseudoClass,
      CssSelectorBuilder.pseudoElement, initState],
      by simp [Op.apply, CssSelectorBuilder.element, CssSelectorBuilder.id,
        CssSelectorBuilder.«class», CssSelectorBuilder.attr, CssSelectorBuilder.pseudoClass,
        CssSelectorBuilder.pseudoElement, initState]⟩

/-- Witness for C7: the facade entry points evaluated at a concrete
argument. -/
theorem c7_witness :
    cssSelectorBuilder.element "x" = .ok ⟨"element", ["x"], 0⟩ ∧
    cssSelectorBuilder.pseudoElement "x" = .ok ⟨"pseudoElement", ["::x"], 5⟩ :=
  ⟨(c7_facade_fresh "x").1, (c7_facade_fresh "x").2.2.2.2.2.1⟩

/-- A store of builder objects indexed by reference, used to state frame
properties of methods that mutate `this` in place. -/
def BuilderStore : Type := Nat → CssSelectorBuilder

/-- The `combine` method acting on a store: the receiver's entry is replaced
by the result of `combine` (the only field the method body assigns is
`this.cssArray`); every other entry is untouched. -/
def combineOnStore (σ : BuilderStore) (self i j : Nat) (combinator : String) :
    BuilderStore :=
  Function.update σ self (CssSelectorBuilder.combine (σ self) (σ i) combinator (σ j))

/-- C10: `combine` leaves both selector arguments untouched — every store
entry other than the receiver is unchanged, so the arguments' fragment
sequences and their rank/duplicate bookkeeping are exactly as before; on the
receiver itself only `cssArray` changes. -/
theorem c10_combine_frame (σ : BuilderStore) (self i j : Nat) (combinator : String)
    (hi : i ≠ self) (hj : j ≠ self) :
    combineOnStore σ self i j combinator i = σ i ∧
    combineOnStore σ self i j combinator j = σ j ∧
    (∀ k, k ≠ self → combineOnStore σ self i j combinator k = σ k) ∧
    (combineOnStore σ self i j combinator self).previousSelector =
      (σ self).previousSelector ∧
    (combineOnStore σ self i j combinator self).order = (σ self).order := by
  refine ⟨Function.update_noteq hi _ σ, Function.update_noteq hj _ σ,
    fun k hk => Function.update_noteq hk _ σ, ?_, ?_⟩ <;>
    rw [combineOnStore, Function.update_same] <;> rfl

/-- Witness for C10: a three-object store, combining entries 1 and 2 into
receiver 0 leaves entries 1 and 2 untouched. -/
theorem c10_witness :
    combineOnStore
        (fun n => if n = 1 then ⟨"id", ["div", "#main"], 1⟩
          else if n = 2 then ⟨"id", ["table", "#data"], 1⟩ else initState)
        0 1 2 "+" 1 =
      (fun n => if n = 1 then (⟨"id", ["div", "#main"], 1⟩ : CssSelectorBuilder)
        else if n = 2 then ⟨"id", ["table", "#data"], 1⟩ else initState) 1 ∧
    combineOnStore
        (fun n => if n = 1 then ⟨"id", ["div", "#main"], 1⟩
          else if n = 2 then ⟨"id", ["table", "#data"], 1⟩ else initState)
        0 1 2 "+" 2 =
      (fun n => if n = 1 then (⟨"id", ["div", "#main"], 1⟩ : CssSelectorBuilder)
        else if n = 2 then ⟨"id", ["table", "#data"], 1⟩ else initState) 2 :=
  ⟨(c10_combine_frame _ 0 1 2 "+" (by decide) (by decide)).1,
    (c10_combine_frame _ 0 1 2 "+" (by decide) (by decide)).2.1⟩

/-- The object returned by the `Rectangle` factory: two data fields plus the
`getArea` method, which in the source is a closure over the constructor
parameters `width` and `height` (not over the fields). -/
structure RectangleObj where
  width : Int
  height : Int
  getArea : Unit → Int

/-- `Rectangle(width, height)`: returns `{ width, height, getArea() { return
width * height; } }` — `getArea` captures the parameters at construction. -/
def Rectangle (width height : Int) : RectangleObj :=
  { width := width, height := height, getArea := fun _ => width * height }

/-- C8 counterexample: mutating the returned object's `width` field does not
change `getArea()` — the closure still multiplies the construction-time
arguments, so the claim that `area()` reflects later field mutations fails. -/
theorem c8_counterexample :
    ({ Rectangle 10 20 with width := 3 }).getArea () = 200 ∧
    ({ Rectangle 10 20 with width := 3 }).width *
        ({ Rectangle 10 20 with width := 3 }).height = 60 ∧
    ¬ ({ Rectangle 10 20 with width := 3 }).getArea () =
        ({ Rectangle 10 20 with width := 3 }).width *
          ({ Rectangle 10 20 with width := 3 }).height :=
  ⟨rfl, rfl, by decide⟩

/-- C8 (amended): `Rectangle` returns an object whose `width` and `height`
fields equal the arguments and whose `getArea()` recomputes the product of
the construction-time arguments on each call; later external mutation of the
fields does not affect `getArea()`, because the method closes over the
parameters; the spec's numeric examples hold. -/
theorem c8_rectangle (width height : Int) :
    (Rectangle width height).width = width ∧
    (Rectangle width height).height = height ∧
    (Rectangle width height).getArea () = width * height ∧
    (∀ w' h', ({ Rectangle width height with width := w', height := h' }).getArea () =
      width * height) ∧
    (Rectangle 10 20).getArea () = 200 ∧
    (Rectangle 0 5).getArea () = 0 :=
  ⟨rfl, rfl, rfl, fun _ _ => rfl, rfl, rfl⟩

/-- Modelled from the spec: the plain-data values handled by the host's
structured-data (JSON) encoder — null, booleans, numbers (modelled as
integers), strings, arrays and objects with ordered string-keyed members. -/
inductive JValue where
  | null
  | bool (b : Bool)
  | num (n : Int)
  | str (s : List Char)
  | arr (elems : List JValue)
  | obj (members : List (List Char × JValue))

/-- Modelled from the spec: the encoder's string escaping — quote and
backslash characters are prefixed with a backslash. -/
def escapeChars : List Char → List Char
  | [] => []
  | c :: rest =>
    if c = '"' ∨ c = '\\' then '\\' :: c :: escapeChars rest
    else c :: escapeChars rest

/-- Little-endian base-10 digits of a natural number, fuelled so that the
definition is structurally recursive and executable. -/
def natDigitsRevF : Nat → Nat → List Nat
  | 0, _ => []
  | f + 1, n => if n = 0 then [] else n % 10 :: natDigitsRevF f (n / 10)

/-- Big-endian base-10 digits of a natural number (`[0]` for zero). -/
def natDigitsBE (n : Nat) : List Nat :=
  if n = 0 then [0] else (natDigitsRevF n n).reverse

/-- Decimal rendering of a natural number. -/
def natToChars (n : Nat) : List Char := (natDigitsBE n).map Nat.digitChar

/-- Decimal rendering of an integer, with a leading minus sign when
negative. -/
def intToChars (n : Int) : List Char :=
  if n < 0 then '-' :: natToChars n.natAbs else natToChars n.natAbs

mutual
/-- Modelled from the spec: the compact JSON rendering of a value, as the
host `JSON.stringify` produces for plain data (no whitespace, members in
order). -/
def serC : JValue → List Char
  | .null => "null".data
  | .bool b => if b then "true".data else "false".data
  | .num n => intToChars n
  | .str s => '"' :: (escapeChars s ++ ['"'])
  | .arr xs => '[' :: (serElems xs ++ [']'])
  | .obj kvs => '{' :: (serMembers kvs ++ ['}'])
/-- Comma-separated renderings of array elements. -/
def serElems : List JValue → List Char
  | [] => []
  | [v] => serC v
  | v :: w :: vs => serC v ++ ',' :: serElems (w :: vs)
/-- Comma-separated renderings of object members. -/
def serMembers : List (List Char × JValue) → List Char
  | [] => []
  | [kv] => serMember kv
  | kv :: kv2 :: kvs => serMember kv ++ ',' :: serMembers (kv2 :: kvs)
/-- Rendering of a single `"key":value` object member. -/
def serMember : List Char × JValue → List Char
  | (k, v) => '"' :: (escapeChars k ++ '"' :: ':' :: serC v)
end




/-- Modelled from the spec: the decoder's string scanner — reads characters
up to an unescaped closing quote, resolving backslash escapes; the flag
records that the previous character was a backslash. -/
def parseStrAux : Bool → List Char → Option (List Char × List Char)
  | _, [] => none
  | true, d :: rest => (parseStrAux false rest).map (fun p => (d :: p.1, p.2))
  | false, c :: rest =>
    if c = '"' then some ([], rest)
    else if c = '\\' then parseStrAux true rest
    else (parseStrAux false rest).map (fun p => (c :: p.1, p.2))

/-- Consume a maximal run of decimal digits, folding them onto an
accumulator. -/
def parseDigits : List Char → Nat → Nat × List Char
  | [], acc => (acc, [])
  | c :: rest, acc =>
    if c.isDigit then parseDigits rest (acc * 10 + (c.toNat - 48)) else (acc, c :: rest)

/-- Whether the input starts with a decimal digit. -/
def headIsDigit : List Char → Bool
  | [] => false
  | c :: _ => c.isDigit

/-- Consume an expected literal sequence of characters. -/
def expectChars : List Char → List Char → Option (List Char)
  | [], cs => some cs
  | _ :: _, [] => none
  | e :: es, c :: cs => if c = e then expectChars es cs else none

mutual
/-- Modelled from the spec: a recursive-descent JSON decoder (the host
`JSON.parse` applied to encoder output), fuelled for termination; returns
the parsed value and the remaining input, or `none` on malformed input. -/
def parseVal : Nat → List Char → Option (JValue × List Char)
  | 0, _ => none
  | _ + 1, [] => none
  | f + 1, c :: rest =>
    if c = 'n' then (expectChars ['u', 'l', 'l'] rest).map (fun r => (JValue.null, r))
    else if c = 't' then (expectChars ['r', 'u', 'e'] rest).map (fun r => (JValue.bool true, r))
    else if c = 'f' then
      (expectChars ['a', 'l', 's', 'e'] rest).map (fun r => (JValue.bool false, r))
    else if c = '"' then (parseStrAux false rest).map (fun p => (JValue.str p.1, p.2))
    else if c = '[' then (parseElems f rest).map (fun p => (JValue.arr p.1, p.2))
    else if c = '{' then (parseMembers f rest).map (fun p => (JValue.obj p.1, p.2))
    else if c = '-' then
      if headIsDigit rest then
        some (JValue.num (-((parseDigits rest 0).1 : Int)), (parseDigits rest 0).2)
      else none
    else if c.isDigit then
      some (JValue.num ((parseDigits (c :: rest) 0).1 : Int), (parseDigits (c :: rest) 0).2)
    else none
/-- Decoder for the element list of an array, after the opening bracket. -/
def parseElems : Nat → List Char → Option (List JValue × List Char)
  | 0, _ => none
  | _ + 1, [] => none
  | f + 1, c :: rest =>
    if c = ']' then some ([], rest)
    else
      match parseVal f (c :: rest) with
      | none => none
      | some (v, r) =>
        match r with
        | ',' :: r2 => (parseElems f r2).map (fun p => (v :: p.1, p.2))
        | ']' :: r2 => some ([v], r2)
        | _ => none
/-- Decoder for the member list of an object, after the opening brace. -/
def parseMembers : Nat → List Char → Option (List (List Char × JValue) × List Char)
  | 0, _ => none
  | _ + 1, [] => none
  | f + 1, c :: rest =>
    if c = '}' then some ([], rest)
    else if c = '"' then
      match parseStrAux false rest with
      | none => none
      | some (k, r) =>
        match r with
        | ':' :: r2 =>
          match parseVal f r2 with
          | none => none
          | some (v, r3) =>
            match r3 with
            | ',' :: r4 => (parseMembers f r4).map (fun p => ((k, v) :: p.1, p.2))
            | '}' :: r4 => some ([(k, v)], r4)
            | _ => none
        | _ => none
    else none
end






theorem expectChars_append (es cs : List Char) : expectChars es (es ++ cs) = some cs := by
  induction es with
  | nil => rfl
  | cons e es ih => simpa [expectChars] using ih

theorem parseStrAux_round (s rest : List Char) :
    parseStrAux false (escapeChars s ++ '"' :: rest) = some (s, rest) := by
  induction s with
  | nil => rfl
  | cons c s ih =>
    by_cases hc : c = '"' ∨ c = '\\'
    · rw [show escapeChars (c :: s) = '\\' :: c :: escapeChars s from by
        rw [escapeChars, if_pos hc]]
      rw [List.cons_append, List.cons_append]
      have hstep : parseStrAux false ('\\' :: (c :: (escapeChars s ++ '"' :: rest))) =
          (parseStrAux false (escapeChars s ++ '"' :: rest)).map
            (fun p => (c :: p.1, p.2)) := by
        conv_lhs => rw [parseStrAux]
        rw [if_neg (by decide), if_pos rfl]
        conv_lhs => rw [parseStrAux]
      rw [hstep, ih]
      rfl
    · push_neg at hc
      rw [show escapeChars (c :: s) = c :: escapeChars s from by
        rw [escapeChars, if_neg (by tauto)]]
      rw [List.cons_append, parseStrAux]
      rw [if_neg hc.1, if_neg hc.2, ih]
      rfl

theorem digitChar_facts (d : Nat) (h : d < 10) :
    (Nat.digitChar d).isDigit = true ∧ (Nat.digitChar d).toNat - 48 = d ∧
    Nat.digitChar d ≠ 'n' ∧ Nat.digitChar d ≠ 't' ∧ Nat.digitChar d ≠ 'f' ∧
    Nat.digitChar d ≠ '"' ∧ Nat.digitChar d ≠ '[' ∧ Nat.digitChar d ≠ '{' ∧
    Nat.digitChar d ≠ '-' ∧ Nat.digitChar d ≠ ']' ∧ Nat.digitChar d ≠ '}' ∧
    Nat.digitChar d ≠ ',' := by
  interval_cases d <;> exact ⟨rfl, rfl, by decide, by decide, by decide, by decide,
    by decide, by decide, by decide, by decide, by decide, by decide⟩

theorem parseDigits_round (ds : List Nat) (h : ∀ d ∈ ds, d < 10) :
    ∀ (acc : Nat) (rest : List Char), headIsDigit rest = false →
      parseDigits (ds.map Nat.digitChar ++ rest) acc =
        (Nat.ofDigits 10 ds.reverse + acc * 10 ^ ds.length, rest) := by
  induction ds with
  | nil =>
    intro acc rest hrest
    cases rest with
    | nil => simp [parseDigits, Nat.ofDigits]
    | cons c t =>
      simp only [headIsDigit] at hrest
      simp only [List.map_nil, List.nil_append, parseDigits]
      rw [if_neg (by simp [hrest])]
      simp [Nat.ofDigits]
  | cons d ds ih =>
    intro acc rest hrest
    have hd : d < 10 := h d (by simp)
    obtain ⟨hdig, hval, -⟩ := digitChar_facts d hd
    simp only [List.map_cons, List.cons_append, parseDigits]
    rw [if_pos hdig, hval]
    simp only [List.append_eq]
    rw [ih (fun x hx => h x (by simp [hx])) _ rest hrest]
    have harith : Nat.ofDigits 10 ds.reverse + (acc * 10 + d) * 10 ^ ds.length =
        Nat.ofDigits 10 ((d :: ds).reverse) + acc * 10 ^ (d :: ds).length := by
      rw [List.reverse_cons, Nat.ofDigits_append, Nat.ofDigits_singleton,
        List.length_reverse, List.length_cons]
      ring
    rw [harith]

theorem natDigitsRevF_eq (f : Nat) : ∀ (n : Nat), n ≤ f → natDigitsRevF f n = Nat.digits 10 n := by
  induction f with
  | zero =>
    intro n hn
    have : n = 0 := by omega
    subst this
    simp [natDigitsRevF]
  | succ f ih =>
    intro n hn
    rw [natDigitsRevF]
    by_cases hzero : n = 0
    · subst hzero; simp
    · rw [if_neg hzero]
      have hdiv : n / 10 ≤ f := by
        have := Nat.div_lt_self (Nat.pos_of_ne_zero hzero) (by norm_num : (1:Nat) < 10)
        omega
      rw [ih (n / 10) hdiv]
      rw [Nat.digits_def' (by norm_num : (1:Nat) < 10) (Nat.pos_of_ne_zero hzero)]

theorem natDigitsBE_spec (n : Nat) :
    natDigitsBE n ≠ [] ∧ (∀ d ∈ natDigitsBE n, d < 10) ∧
      Nat.ofDigits 10 (natDigitsBE n).reverse = n := by
  by_cases hn : n = 0
  · subst hn
    refine ⟨by simp [natDigitsBE], ?_, by simp [natDigitsBE, Nat.ofDigits]⟩
    intro d hd
    simp [natDigitsBE] at hd
    omega
  · rw [natDigitsBE, if_neg hn, natDigitsRevF_eq n n le_rfl]
    refine ⟨?_, ?_, ?_⟩
    · have := (@Nat.digits_ne_nil_iff_ne_zero 10 n).mpr hn
      simpa using this
    · intro d hd
      rw [List.mem_reverse] at hd
      exact Nat.digits_lt_base (by norm_num) hd
    · rw [List.reverse_reverse]
      exact Nat.ofDigits_digits 10 n

theorem parseNat_round (m : Nat) (rest : List Char) (hrest : headIsDigit rest = false) :
    parseDigits (natToChars m ++ rest) 0 = (m, rest) := by
  obtain ⟨hne, hlt, hof⟩ := natDigitsBE_spec m
  rw [natToChars, parseDigits_round (natDigitsBE m) hlt 0 rest hrest, hof]
  simp

theorem natToChars_shape (m : Nat) :
    ∃ d ds, natToChars m = Nat.digitChar d :: ds ∧ d < 10 := by
  obtain ⟨hne, hlt, -⟩ := natDigitsBE_spec m
  cases hbe : natDigitsBE m with
  | nil => exact absurd hbe hne
  | cons d ds =>
    refine ⟨d, ds.map Nat.digitChar, ?_, hlt d (by rw [hbe]; simp)⟩
    rw [natToChars, hbe]
    rfl

mutual
/-- Structural nesting size of a value, bounding the parser fuel it needs. -/
def sizeJ : JValue → Nat
  | .null => 1
  | .bool _ => 1
  | .num _ => 1
  | .str _ => 1
  | .arr xs => 1 + sizeElems xs
  | .obj kvs => 1 + sizeMembers kvs
/-- Nesting size of an array's element list. -/
def sizeElems : List JValue → Nat
  | [] => 1
  | [v] => 1 + sizeJ v
  | v :: w :: vs => 1 + sizeJ v + sizeElems (w :: vs)
/-- Nesting size of an object's member list. -/
def sizeMembers : List (List Char × JValue) → Nat
  | [] => 1
  | [kv] => 1 + sizeJ kv.2
  | kv :: kv2 :: kvs => 1 + sizeJ kv.2 + sizeMembers (kv2 :: kvs)
end

theorem sizeJ_pos (v : JValue) : 1 ≤ sizeJ v := by
  cases v <;> simp [sizeJ]

theorem sizeElems_pos (xs : List JValue) : 1 ≤ sizeElems xs := by
  cases xs with
  | nil => simp [sizeElems]
  | cons v vs =>
    cases vs <;> simp [sizeElems] <;> omega

theorem sizeMembers_pos (kvs : List (List Char × JValue)) : 1 ≤ sizeMembers kvs := by
  cases kvs with
  | nil => simp [sizeMembers]
  | cons kv kvs' =>
    cases kvs' <;> simp [sizeMembers] <;> omega

theorem serC_head (v : JValue) :
    ∃ c cs, serC v = c :: cs ∧ c ≠ ']' ∧ c ≠ '}' ∧ c ≠ ',' := by
  cases v with
  | null => exact ⟨'n', _, rfl, by decide, by decide, by decide⟩
  | bool b =>
    cases b with
    | false => exact ⟨'f', _, rfl, by decide, by decide, by decide⟩
    | true => exact ⟨'t', _, rfl, by decide, by decide, by decide⟩
  | num n =>
    rw [show serC (JValue.num n) = intToChars n from rfl, intToChars]
    by_cases hn : n < 0
    · rw [if_pos hn]
      exact ⟨'-', _, rfl, by decide, by decide, by decide⟩
    · rw [if_neg hn]
      obtain ⟨d, ds, heq, hd⟩ := natToChars_shape n.natAbs
      rw [heq]
      obtain ⟨-, -, -, -, -, -, -, -, -, h1, h2, h3⟩ := digitChar_facts d hd
      exact ⟨_, _, rfl, h1, h2, h3⟩
  | str s => exact ⟨'"', _, rfl, by decide, by decide, by decide⟩
  | arr xs => exact ⟨'[', _, rfl, by decide, by decide, by decide⟩
  | obj kvs => exact ⟨'{', _, rfl, by decide, by decide, by decide⟩

theorem parse_round (f : Nat) :
    (∀ (v : JValue) (rest : List Char), sizeJ v ≤ f → headIsDigit rest = false →
      parseVal f (serC v ++ rest) = some (v, rest)) ∧
    (∀ (xs : List JValue) (rest : List Char), sizeElems xs ≤ f →
      parseElems f (serElems xs ++ ']' :: rest) = some (xs, rest)) ∧
    (∀ (kvs : List (List Char × JValue)) (rest : List Char), sizeMembers kvs ≤ f →
      parseMembers f (serMembers kvs ++ '}' :: rest) = some (kvs, rest)) := by
  induction f with
  | zero =>
    refine ⟨?_, ?_, ?_⟩
    · intro v rest hsize hrest
      exact absurd hsize (by have := sizeJ_pos v; omega)
    · intro xs rest hsize
      exact absurd hsize (by have := sizeElems_pos xs; omega)
    · intro kvs rest hsize
      exact absurd hsize (by have := sizeMembers_pos kvs; omega)
  | succ f ih =>
    obtain ⟨ihV, ihE, ihM⟩ := ih
    refine ⟨?_, ?_, ?_⟩
    · intro v rest hsize hrest
      cases v with
      | null =>
        rw [show serC JValue.null ++ rest = 'n' :: (['u', 'l', 'l'] ++ rest) from rfl]
        rw [parseVal, if_pos rfl, expectChars_append]
        rfl
      | bool b =>
        cases b with
        | true =>
          rw [show serC (JValue.bool true) ++ rest = 't' :: (['r', 'u', 'e'] ++ rest) from rfl]
          rw [parseVal, if_neg (by decide), if_pos rfl, expectChars_append]
          rfl
        | false =>
          rw [show serC (JValue.bool false) ++ rest =
            'f' :: (['a', 'l', 's', 'e'] ++ rest) from rfl]
          rw [parseVal, if_neg (by decide), if_neg (by decide), if_pos rfl,
            expectChars_append]
          rfl
      | str s =>
        rw [show serC (JValue.str s) ++ rest = '"' :: (escapeChars s ++ '"' :: rest) from by
          rw [show serC (JValue.str s) = '"' :: (escapeChars s ++ ['"']) from by rw [serC]]
          simp]
        rw [parseVal, if_neg (by decide), if_neg (by decide), if_neg (by decide),
          if_pos rfl, parseStrAux_round]
        rfl
      | num n =>
        by_cases hn : n < 0
        · rw [show serC (JValue.num n) = '-' :: natToChars n.natAbs from by
            rw [show serC (JValue.num n) = intToChars n from by rw [serC], intToChars,
              if_pos hn]]
          rw [List.cons_append]
          rw [parseVal, if_neg (by decide), if_neg (by decide), if_neg (by decide),
            if_neg (by decide), if_neg (by decide), if_neg (by decide), if_pos rfl]
          obtain ⟨d, ds, heq, hd⟩ := natToChars_shape n.natAbs
          obtain ⟨hdig, -⟩ := digitChar_facts d hd
          rw [show headIsDigit (natToChars n.natAbs ++ rest) = true from by
            rw [heq, List.cons_append]
            simpa [headIsDigit] using hdig]
          rw [if_pos rfl, parseNat_round n.natAbs rest hrest]
          have hval : -((n.natAbs : Int)) = n := by omega
          rw [hval]
        · rw [show serC (JValue.num n) = natToChars n.natAbs from by
            rw [show serC (JValue.num n) = intToChars n from by rw [serC], intToChars,
              if_neg hn]]
          obtain ⟨d, ds, heq, hd⟩ := natToChars_shape n.natAbs
          obtain ⟨hdig, -, hn1, hn2, hn3, hn4, hn5, hn6, hn7, -⟩ := digitChar_facts d hd
          rw [heq, List.cons_append]
          rw [parseVal, if_neg hn1, if_neg hn2, if_neg hn3, if_neg hn4, if_neg hn5,
            if_neg hn6, if_neg hn7, if_pos hdig]
          rw [show Nat.digitChar d :: (ds ++ rest) = natToChars n.natAbs ++ rest from by
            rw [heq, List.cons_append]]
          rw [parseNat_round n.natAbs rest hrest]
          have hval : ((n.natAbs : Int)) = n := by omega
          rw [hval]
      | arr xs =>
        rw [show serC (JValue.arr xs) ++ rest =
            '[' :: (serElems xs ++ ']' :: rest) from by
          rw [show serC (JValue.arr xs) = '[' :: (serElems xs ++ [']']) from by rw [serC]]
          simp]
        rw [parseVal, if_neg (by decide), if_neg (by decide), if_neg (by decide),
          if_neg (by decide), if_pos rfl]
        rw [ihE xs rest (by
          rw [show sizeJ (JValue.arr xs) = 1 + sizeElems xs from by rw [sizeJ]] at hsize
          omega)]
        rfl
      | obj kvs =>
        rw [show serC (JValue.obj kvs) ++ rest =
            '{' :: (serMembers kvs ++ '}' :: rest) from by
          rw [show serC (JValue.obj kvs) = '{' :: (serMembers kvs ++ ['}']) from by
            rw [serC]]
          simp]
        rw [parseVal, if_neg (by decide), if_neg (by decide), if_neg (by decide),
          if_neg (by decide), if_neg (by decide), if_pos rfl]
        rw [ihM kvs rest (by
          rw [show sizeJ (JValue.obj kvs) = 1 + sizeMembers kvs from by rw [sizeJ]] at hsize
          omega)]
        rfl
    · intro xs rest hsize
      cases xs with
      | nil =>
        rw [show serElems [] ++ ']' :: rest = ']' :: rest from rfl]
        rw [parseElems, if_pos rfl]
      | cons v vs =>
        cases vs with
        | nil =>
          rw [show serElems [v] = serC v from by rw [serElems]]
          obtain ⟨c, cs, hser, hne1, hne2, hne3⟩ := serC_head v
          rw [hser, List.cons_append]
          rw [parseElems, if_neg hne1]
          rw [show c :: (cs ++ ']' :: rest) = serC v ++ ']' :: rest from by
            rw [hser, List.cons_append]]
          rw [ihV v (']' :: rest) (by
              rw [show sizeElems [v] = 1 + sizeJ v from by rw [sizeElems]] at hsize
              omega)
            rfl]
          rfl
        | cons w ws =>
          rw [show serElems (v :: w :: ws) = serC v ++ ',' :: serElems (w :: ws) from by
            rw [serElems]]
          rw [List.append_assoc, List.cons_append]
          obtain ⟨c, cs, hser, hne1, hne2, hne3⟩ := serC_head v
          rw [hser, List.cons_append]
          rw [parseElems, if_neg hne1]
          rw [show c :: (cs ++ (',' :: (serElems (w :: ws) ++ ']' :: rest))) =
              serC v ++ (',' :: (serElems (w :: ws) ++ ']' :: rest)) from by
            rw [hser, List.cons_append]]
          have hsz : sizeJ v ≤ f ∧ sizeElems (w :: ws) ≤ f := by
            rw [show sizeElems (v :: w :: ws) = 1 + sizeJ v + sizeElems (w :: ws) from by
              rw [sizeElems]] at hsize
            have h1 := sizeJ_pos v
            have h2 := sizeElems_pos (w :: ws)
            omega
          rw [ihV v (',' :: (serElems (w :: ws) ++ ']' :: rest)) hsz.1 rfl]
          simp only [ihE (w :: ws) rest hsz.2]
          rfl
    · intro kvs rest hsize
      cases kvs with
      | nil =>
        rw [show serMembers [] ++ '}' :: rest = '}' :: rest from rfl]
        rw [parseMembers, if_pos rfl]
      | cons kv kvs' =>
        obtain ⟨k, v⟩ := kv
        cases kvs' with
        | nil =>
          rw [show serMembers [(k, v)] = serMember (k, v) from by rw [serMembers]]
          rw [show serMember (k, v) = '"' :: (escapeChars k ++ '"' :: ':' :: serC v) from by
            rw [serMember]]
          rw [List.cons_append, List.append_assoc]
          rw [parseMembers, if_neg (by decide), if_pos rfl]
          rw [show ('"' :: ':' :: serC v : List Char) ++ '}' :: rest =
            '"' :: (':' :: (serC v ++ '}' :: rest)) from by simp]
          rw [parseStrAux_round k (':' :: (serC v ++ '}' :: rest))]
          have hszv : sizeJ v ≤ f := by
            rw [show sizeMembers [(k, v)] = 1 + sizeJ (k, v).2 from by rw [sizeMembers]]
              at hsize
            simp at hsize
            omega
          simp only [ihV v ('}' :: rest) hszv rfl]
        | cons kv2 kvs2 =>
          rw [show serMembers ((k, v) :: kv2 :: kvs2) =
              serMember (k, v) ++ ',' :: serMembers (kv2 :: kvs2) from by rw [serMembers]]
          rw [show serMember (k, v) = '"' :: (escapeChars k ++ '"' :: ':' :: serC v) from by
            rw [serMember]]
          rw [List.append_assoc, List.cons_append, List.append_assoc]
          rw [parseMembers, if_neg (by decide), if_pos rfl]
          rw [show ('"' :: ':' :: serC v : List Char) ++
              (',' :: serMembers (kv2 :: kvs2) ++ '}' :: rest) =
            '"' :: (':' :: (serC v ++ (',' :: (serMembers (kv2 :: kvs2) ++ '}' :: rest))))
              from by simp]
          rw [parseStrAux_round k
            (':' :: (serC v ++ (',' :: (serMembers (kv2 :: kvs2) ++ '}' :: rest))))]
          have hsz : sizeJ v ≤ f ∧ sizeMembers (kv2 :: kvs2) ≤ f := by
            rw [show sizeMembers ((k, v) :: kv2 :: kvs2) =
                1 + sizeJ (k, v).2 + sizeMembers (kv2 :: kvs2) from by rw [sizeMembers]]
              at hsize
            simp at hsize
            have h1 := sizeJ_pos v
            have h2 := sizeMembers_pos (kv2 :: kvs2)
            omega
          simp only [ihV v (',' :: (serMembers (kv2 :: kvs2) ++ '}' :: rest)) hsz.1 rfl]
          simp only [ihM (kv2 :: kvs2) rest hsz.2]
          rfl

theorem size_le_len (n : Nat) :
    (∀ v, sizeJ v ≤ n → sizeJ v ≤ (serC v).length) ∧
    (∀ xs, sizeElems xs ≤ n → sizeElems xs ≤ (serElems xs).length + 1) ∧
    (∀ kvs, sizeMembers kvs ≤ n → sizeMembers kvs ≤ (serMembers kvs).length + 1) := by
  induction n with
  | zero =>
    refine ⟨?_, ?_, ?_⟩
    · intro v hsize
      exact absurd hsize (by have := sizeJ_pos v; omega)
    · intro xs hsize
      exact absurd hsize (by have := sizeElems_pos xs; omega)
    · intro kvs hsize
      exact absurd hsize (by have := sizeMembers_pos kvs; omega)
  | succ n ih =>
    obtain ⟨ihV, ihE, ihM⟩ := ih
    have hlen1 : ∀ v : JValue, 1 ≤ (serC v).length := by
      intro v
      obtain ⟨c, cs, hser, -⟩ := serC_head v
      rw [hser]
      simp
    refine ⟨?_, ?_, ?_⟩
    · intro v hsize
      cases v with
      | null => decide
      | bool b => cases b <;> decide
      | num k =>
        rw [show sizeJ (JValue.num k) = 1 from by rw [sizeJ]]
        exact hlen1 _
      | str s =>
        rw [show sizeJ (JValue.str s) = 1 from by rw [sizeJ]]
        exact hlen1 _
      | arr xs =>
        rw [show sizeJ (JValue.arr xs) = 1 + sizeElems xs from by rw [sizeJ]] at hsize ⊢
        rw [show serC (JValue.arr xs) = '[' :: (serElems xs ++ [']']) from by rw [serC]]
        have h := ihE xs (by omega)
        simp only [List.length_cons, List.length_append, List.length_singleton]
        omega
      | obj kvs =>
        rw [show sizeJ (JValue.obj kvs) = 1 + sizeMembers kvs from by rw [sizeJ]] at hsize ⊢
        rw [show serC (JValue.obj kvs) = '{' :: (serMembers kvs ++ ['}']) from by rw [serC]]
        have h := ihM kvs (by omega)
        simp only [List.length_cons, List.length_append, List.length_singleton]
        omega
    · intro xs hsize
      cases xs with
      | nil => simp [sizeElems, serElems]
      | cons v vs =>
        cases vs with
        | nil =>
          rw [show sizeElems [v] = 1 + sizeJ v from by rw [sizeElems]] at hsize ⊢
          rw [show serElems [v] = serC v from by rw [serElems]]
          have h := ihV v (by omega)
          omega
        | cons w ws =>
          rw [show sizeElems (v :: w :: ws) = 1 + sizeJ v + sizeElems (w :: ws) from by
            rw [sizeElems]] at hsize ⊢
          rw [show serElems (v :: w :: ws) = serC v ++ ',' :: serElems (w :: ws) from by
            rw [serElems]]
          have h1 := ihV v (by have := sizeElems_pos (w :: ws); omega)
          have h2 := ihE (w :: ws) (by have := sizeJ_pos v; omega)
          simp only [List.length_append, List.length_cons]
          omega
    · intro kvs hsize
      cases kvs with
      | nil => simp [sizeMembers, serMembers]
      | cons kv kvs' =>
        obtain ⟨k, v⟩ := kv
        have hmemlen : (serMember (k, v)).length = (escapeChars k).length + 3 +
            (serC v).length := by
          rw [show serMember (k, v) = '"' :: (escapeChars k ++ '"' :: ':' :: serC v) from by
            rw [serMember]]
          simp only [List.length_cons, List.length_append]
          omega
        cases kvs' with
        | nil =>
          rw [show sizeMembers [(k, v)] = 1 + sizeJ (k, v).2 from by rw [sizeMembers]]
            at hsize ⊢
          rw [show serMembers [(k, v)] = serMember (k, v) from by rw [serMembers]]
          simp only at hsize ⊢
          have h := ihV v (by omega)
          omega
        | cons kv2 kvs2 =>
          rw [show sizeMembers ((k, v) :: kv2 :: kvs2) =
              1 + sizeJ (k, v).2 + sizeMembers (kv2 :: kvs2) from by rw [sizeMembers]]
            at hsize ⊢
          rw [show serMembers ((k, v) :: kv2 :: kvs2) =
              serMember (k, v) ++ ',' :: serMembers (kv2 :: kvs2) from by rw [serMembers]]
          simp only at hsize ⊢
          have h1 := ihV v (by have := sizeMembers_pos (kv2 :: kvs2); omega)
          have h2 := ihM (kv2 :: kvs2) (by have := sizeJ_pos v; omega)
          simp only [List.length_append, List.length_cons]
          omega

theorem sizeJ_le_serC_length (v : JValue) : sizeJ v ≤ (serC v).length :=
  (size_le_len (sizeJ v)).1 v le_rfl

/-- Modelled from the spec: the host `JSON.stringify` on plain data. -/
def JSONstringify (v : JValue) : String := String.mk (serC v)

/-- Modelled from the spec: the host `JSON.parse` — decodes the whole
string or fails; the fuel `s.data.length` suffices for any encoder output. -/
def JSONparse (s : String) : Option JValue :=
  match parseVal s.data.length s.data with
  | some (v, []) => some v
  | _ => none

theorem JSONparse_stringify (v : JValue) : JSONparse (JSONstringify v) = some v := by
  unfold JSONparse
  rw [show (JSONstringify v).data = serC v from rfl]
  have h := (parse_round (serC v).length).1 v [] (sizeJ_le_serC_length v) rfl
  rw [List.append_nil] at h
  rw [h]

/-- Modelled from the spec: a parsed object together with the prototype
attached to it by `Object.setPrototypeOf`; the prototype is an opaque shape
descriptor that the JSON encoder ignores. -/
structure JSObject (α : Type) where
  proto : α
  fields : JValue

/-- Modelled from the spec: `Object.setPrototypeOf(value, proto)` — returns
the same own fields with the prototype attached. -/
def setPrototypeOf {α : Type} (v : JValue) (proto : α) : JSObject α := ⟨proto, v⟩

/-- Source `getJSON(obj)`: returns `JSON.stringify(obj)`. -/
def getJSON (obj : JValue) : String := JSONstringify obj

/-- Source `fromJSON(proto, json)`: returns
`Object.setPrototypeOf(JSON.parse(json), proto)`; a parse failure
propagates. -/
def fromJSON {α : Type} (proto : α) (json : String) : Option (JSObject α) :=
  (JSONparse json).map (fun parsed => setPrototypeOf parsed proto)

/-- Source `getJSON` applied to a prototype-tagged object: `JSON.stringify`
serializes own enumerable fields only, ignoring the prototype. -/
def getJSONOfObject {α : Type} (o : JSObject α) : String := JSONstringify o.fields

/-- C9: for every plain-data value and every prototype,
`getJSON(fromJSON(proto, getJSON(x)))` reproduces exactly the serialization
of `x` — the round trip through the structured-data encoder restores the
same field names and values (here with key order preserved exactly); the
doc-comment example `getJSON([1,2,3]) = "[1,2,3]"` also holds. -/
theorem c9_json_roundtrip {α : Type} (proto : α) (x : JValue) :
    fromJSON proto (getJSON x) = some (setPrototypeOf x proto) ∧
    (fromJSON proto (getJSON x)).map getJSONOfObject = some (getJSON x) ∧
    getJSON (JValue.arr [JValue.num 1, JValue.num 2, JValue.num 3]) = "[1,2,3]" := by
  have h := JSONparse_stringify x
  refine ⟨?_, ?_, ?_⟩
  · rw [fromJSON, getJSON, h]
    rfl
  · rw [fromJSON, getJSON, h]
    rfl
  · rfl
